import Mathlib

/-!
Verification of pgsql-postal (src/postal.c) against its specification.

Shallow embedding: bytes are `Nat` values (0-255); a C string is modelled as
the list of its bytes before the terminating NUL, so a list that models the
content of an actual C string never contains the byte 0.  The embedded
pieces are:

* `escape_json_string` (postal.c lines 112-158): the JSON string escaper,
  including its output-index bookkeeping and early-exit guard;
* the JSON object text built by `postal_parse` (lines 179-192) and a strict
  byte-level checker for the object grammar accepted by the host document
  parser (string bodies may contain escapes from the standard single-char
  escape set and raw bytes that are neither a quote, a backslash, nor a
  control byte below 0x20; encoding validation sits above this layer);
* the marshaling loop of `postal_normalize` (lines 97-103);
* the acquire/release behaviour of both marshalers across the libpostal
  boundary, with host allocations modelled by a fallible oracle (a failed
  PostgreSQL allocation raises elog(ERROR), which aborts the function at
  that point: no later statement of the function runs, and postal.c
  installs no cleanup handler);
* the short-circuit initialization of `_PG_init` (lines 56-64).
-/

/-- The switch statement of escape_json_string (postal.c lines 121-153):
the two-byte sequence emitted for each of the seven special bytes, and the
byte itself for every other byte.  92 is the backslash, 34 the double
quote; 110, 114, 116, 98, 102 are the letters n, r, t, b, f. -/
def escapeByte (c : Nat) : List Nat :=
  if c = 92 then [92, 92]
  else if c = 34 then [92, 34]
  else if c = 10 then [92, 110]
  else if c = 13 then [92, 114]
  else if c = 9 then [92, 116]
  else if c = 8 then [92, 98]
  else if c = 12 then [92, 102]
  else [c]

/-- The for loop of escape_json_string (postal.c lines 118-155).  `acc` is
the output written so far (so `acc.length` is the output index j), `plen`
is pstr_len, and the early-exit guard `if (j == pstr_len) break` is the
equality test after each byte is handled. -/
def escapeLoop (plen : Nat) (acc : List Nat) : List Nat → List Nat
  | [] => acc
  | c :: rest =>
    if (acc ++ escapeByte c).length = plen then acc ++ escapeByte c
    else escapeLoop plen (acc ++ escapeByte c) rest

/-- escape_json_string (postal.c lines 112-158) on the byte content of its
input: the buffer size pstr_len is 2*(str_len+1) (line 115) and the loop
starts from an empty output.  The result is the content written before the
final NUL terminator (line 156). -/
def escape_json_string (s : List Nat) : List Nat :=
  escapeLoop (2 * (s.length + 1)) [] s

/-- Plain per-byte composition of the escaping table over a whole string:
the intended, guard-free meaning of the escaper. -/
def escapeAll : List Nat → List Nat
  | [] => []
  | c :: rest => escapeByte c ++ escapeAll rest

/-- Modelled from the spec: the escape step of a standard strict
document-string decoder (the inverse escape table of RFC-style JSON).
The decodable escapes after a backslash are quote, backslash, solidus,
b, f, n, r, t; anything else (including a bare \u, whose four-hex-digit
form the escaper never emits) is rejected. -/
def decodeEsc (e : Nat) : Option Nat :=
  if e = 34 then some 34
  else if e = 92 then some 92
  else if e = 47 then some 47
  else if e = 98 then some 8
  else if e = 102 then some 12
  else if e = 110 then some 10
  else if e = 114 then some 13
  else if e = 116 then some 9
  else none

/-- Modelled from the spec: a standard strict document-string decoder on
the body of a double-quoted string literal.  A raw quote or a raw control
byte below 0x20 is invalid, a backslash must start a known escape, every
other byte stands for itself.  (Text-encoding validation sits above this
byte layer and is out of scope, as the spec places the escaper below the
encoding layer.) -/
def jsonDecodeBody : List Nat → Option (List Nat)
  | [] => some []
  | [c] =>
    if c = 92 ∨ c = 34 ∨ c < 32 then none else some [c]
  | c1 :: c2 :: rest =>
    if c1 = 92 then
      match decodeEsc c2 with
      | some b => (jsonDecodeBody rest).map (fun t => b :: t)
      | none => none
    else if c1 = 34 ∨ c1 < 32 then none
    else (jsonDecodeBody (c2 :: rest)).map (fun t => c1 :: t)

/-- A byte is decoder-clean when the escaper leaves its raw occurrence
legal for the strict decoder: it is printable-or-higher, or one of the
five control bytes the escaper turns into escapes. -/
def goodByte (b : Nat) : Prop :=
  32 ≤ b ∨ b = 8 ∨ b = 9 ∨ b = 10 ∨ b = 12 ∨ b = 13

instance (b : Nat) : Decidable (goodByte b) := by
  unfold goodByte
  infer_instance

/-- A byte that may stand raw inside a double-quoted literal without being
one of the claim's forbidden raw bytes: not a quote, not a backslash, and
not one of the five raw control bytes newline, CR, tab, backspace, form
feed. -/
def plainOk (c : Nat) : Bool :=
  !(c == 34) && !(c == 92) && !(c == 10) && !(c == 13) && !(c == 9) && !(c == 8) && !(c == 12)

/-- The second byte of a two-byte escape sequence as the escaper emits
them: backslash, quote, or one of the letters n, r, t, b, f. -/
def isEscCode (e : Nat) : Bool :=
  e == 92 || e == 34 || e == 110 || e == 114 || e == 116 || e == 98 || e == 102

/-- Scanner for the claim's output invariant: no raw newline, CR, tab,
backspace or form feed anywhere, and every quote or backslash occurs only
inside a two-byte escape sequence that starts with a backslash. -/
def safeJsonBody : List Nat → Bool
  | [] => true
  | [c] => plainOk c
  | c1 :: c2 :: rest =>
    if c1 = 92 then isEscCode c2 && safeJsonBody rest
    else plainOk c1 && safeJsonBody (c2 :: rest)

/-- One `"label":"escaped-component"` member as postal_parse appends it
(postal.c line 189, with the component escaped at line 188): 34 is the
quote and 58 the colon. -/
def pairText (label comp : List Nat) : List Nat :=
  [34] ++ label ++ [34, 58, 34] ++ escape_json_string comp ++ [34]

/-- The intermediate JSON object text built by postal_parse (postal.c
lines 179-192) from the engine's (label, component) pairs: an opening
brace (123), the members separated by commas (44, appended when i > 0),
and a closing brace (125). -/
def postal_parse_json (pairs : List (List Nat × List Nat)) : List Nat :=
  123 :: (match pairs with
    | [] => []
    | p :: ps => pairText p.1 p.2 ++ ps.foldr (fun q r => (44 :: pairText q.1 q.2) ++ r) []) ++ [125]

/-- Modelled from the spec: the host document parser's scan of a string
literal body after the opening quote.  Stops at the closing quote and
returns what follows; rejects a raw control byte, a dangling backslash, or
an unknown escape. -/
def scanString : List Nat → Option (List Nat)
  | [] => none
  | [c] => if c = 34 then some [] else none
  | c1 :: c2 :: rest =>
    if c1 = 34 then some (c2 :: rest)
    else if c1 = 92 then
      if (decodeEsc c2).isSome then scanString rest else none
    else if c1 < 32 then none
    else scanString (c2 :: rest)

/-- Modelled from the spec: one `"key":"value"` member of an object, as
the host parser reads it.  Returns what follows the member. -/
def scanMember (l : List Nat) : Option (List Nat) :=
  match l with
  | 34 :: r1 =>
    match scanString r1 with
    | some r =>
      match r with
      | 58 :: 34 :: r2 => scanString r2
      | _ => none
    | none => none
  | _ => none

/-- Modelled from the spec: after a complete member, the host parser
expects either the closing brace ending the text, or a comma and another
member.  Fuel bounds the recursion and is in practice the remaining
length. -/
def scanMembersTail : Nat → List Nat → Bool
  | _, [125] => true
  | fuel + 1, 44 :: r =>
    (match scanMember r with
     | some r2 => scanMembersTail fuel r2
     | none => false)
  | _, _ => false

/-- Modelled from the spec: the inside of an object after the opening
brace: either an immediate closing brace, or a first member followed by
the comma-separated tail. -/
def scanMembersStart (l : List Nat) : Bool :=
  if l = [125] then true
  else
    match scanMember l with
    | some r => scanMembersTail r.length r
    | none => false

/-- Modelled from the spec: acceptance of a whole object text by the host
document parser (postal_parse builds no whitespace, so none is allowed):
an opening brace, members, a closing brace ending the text. -/
def jsonObjOk (l : List Nat) : Bool :=
  match l with
  | 123 :: rest => scanMembersStart rest
  | _ => false

/-- The comma-separated tail of the object text after the first member,
closed by the final brace. -/
def tailTextJson (ps : List (List Nat × List Nat)) : List Nat :=
  ps.foldr (fun q r => (44 :: pairText q.1 q.2) ++ r) [] ++ [125]

/-- Acquire/release events on the libpostal boundary: the expansion array
returned by libpostal_expand_address and its destroy call, and the parser
response returned by libpostal_parse_address and its destroy call. -/
inductive BoundaryEv where
  | expandAcq : BoundaryEv
  | expandRelease : BoundaryEv
  | parseAcq : BoundaryEv
  | parseRelease : BoundaryEv
deriving DecidableEq

/-- First index in [start, start + n) at which the host allocation oracle
fails, if any. -/
def firstFail (ok : Nat → Bool) : Nat → Nat → Option Nat
  | _, 0 => none
  | start, k + 1 => if ok start then firstFail ok (start + 1) k else some start

/-- The boundary behaviour of postal_normalize (postal.c lines 81-109) for
an engine that returns `n` expansions, against a host allocation oracle
`ok`.  Host allocations in source order: index 0 is text_to_cstring (line
86, before the engine call), index 1 is the palloc of arr_elems (line 88),
indices 2..n+1 are the cstring_to_text calls of the loop (line 99), index
n+2 is construct_array (line 103).  A failed PostgreSQL allocation raises
elog(ERROR), which aborts the function at that point; postal.c installs no
cleanup handler, so no statement after the failing one runs.  The result
is the list of boundary events that happened and whether the call
returned normally. -/
def postal_normalize_run (n : Nat) (ok : Nat → Bool) : List BoundaryEv × Bool :=
  if ok 0 = false then ([], false)
  else if ok 1 = false then ([BoundaryEv.expandAcq], false)
  else
    match firstFail ok 2 n with
    | some _ => ([BoundaryEv.expandAcq], false)
    | none =>
      if ok (n + 2) = false then ([BoundaryEv.expandAcq], false)
      else ([BoundaryEv.expandAcq, BoundaryEv.expandRelease], true)

/-- The boundary behaviour of postal_parse (postal.c lines 166-199) for an
engine that returns `n` components, against a host allocation oracle `ok`
and the verdict `jsonAccepted` of the host document parser on the built
text.  Host allocations in source order: index 0 is text_to_cstring (line
171, before the engine call), index 1 is initStringInfo (line 179),
indices 2..n+1 merge the host allocations of loop iteration i (the palloc
inside escape_json_string at line 188 and the StringInfo growth at line
189).  The response destroy (line 195) precedes the jsonb_in call (line
198), so a document-parser rejection propagates only after the release. -/
def postal_parse_run (n : Nat) (ok : Nat → Bool) (jsonAccepted : Bool) :
    List BoundaryEv × Bool :=
  if ok 0 = false then ([], false)
  else if ok 1 = false then ([BoundaryEv.parseAcq], false)
  else
    match firstFail ok 2 n with
    | some _ => ([BoundaryEv.parseAcq], false)
    | none =>
      if jsonAccepted then ([BoundaryEv.parseAcq, BoundaryEv.parseRelease], true)
      else ([BoundaryEv.parseAcq, BoundaryEv.parseRelease], false)

/-- The marshaling loop of postal_normalize (postal.c lines 97-103): cell
i of arr_elems is cstring_to_text(expansions[i]) (bytes preserved), and
construct_array copies the cells in index order into the result array of
length arr_nelems. -/
def postal_normalize_result (expansions : List (List Nat)) : List (List Nat) :=
  (List.range expansions.length).map (fun i => expansions.getD i [])

/-- The three libpostal setup calls issued by _PG_init. -/
inductive SetupStep where
  | coreSetup : SetupStep
  | parserSetup : SetupStep
  | classifierSetup : SetupStep
deriving DecidableEq

/-- _PG_init (postal.c lines 56-64) for given results of the three setup
calls: the C condition `!setup() || !setup_parser() || !setup_classifier()`
evaluates left to right and short-circuits, and a true condition raises
elog(ERROR).  The result is the list of setup calls attempted and whether
startup succeeded. -/
def pg_init (s1 s2 s3 : Bool) : List SetupStep × Bool :=
  if s1 = false then ([SetupStep.coreSetup], false)
  else if s2 = false then ([SetupStep.coreSetup, SetupStep.parserSetup], false)
  else if s3 = false then
    ([SetupStep.coreSetup, SetupStep.parserSetup, SetupStep.classifierSetup], false)
  else ([SetupStep.coreSetup, SetupStep.parserSetup, SetupStep.classifierSetup], true)

lemma escapeByte_len_pos (c : Nat) : 1 ≤ (escapeByte c).length := by
  unfold escapeByte
  split_ifs <;> simp

lemma escapeByte_len_le (c : Nat) : (escapeByte c).length ≤ 2 := by
  unfold escapeByte
  split_ifs <;> simp

lemma escapeByte_eq_self (c : Nat) (h92 : c ≠ 92) (h34 : c ≠ 34) (h10 : c ≠ 10)
    (h13 : c ≠ 13) (h9 : c ≠ 9) (h8 : c ≠ 8) (h12 : c ≠ 12) :
    escapeByte c = [c] := by
  unfold escapeByte
  split_ifs <;> first | contradiction | rfl

/-- The early-exit guard never fires while `acc.length + 2*l.length` stays
below the buffer size, so the loop computes the full per-byte composition. -/
lemma escapeLoop_no_break (l : List Nat) : ∀ (plen : Nat) (acc : List Nat),
    acc.length + 2 * l.length < plen → escapeLoop plen acc l = acc ++ escapeAll l := by
  induction l with
  | nil =>
    intro plen acc _
    simp [escapeLoop, escapeAll]
  | cons c rest ih =>
    intro plen acc h
    have h2 := escapeByte_len_le c
    have hlt : (acc ++ escapeByte c).length + 2 * rest.length < plen := by
      simp only [List.length_append]
      simp only [List.length_cons] at h
      omega
    have hne : ¬((acc ++ escapeByte c).length = plen) := by omega
    simp only [escapeLoop, if_neg hne]
    rw [ih plen (acc ++ escapeByte c) hlt]
    simp [escapeAll, List.append_assoc]

/-- escape_json_string processes every input byte: the guard with the
buffer bound 2*(len+1) never truncates, and the result is exactly the
per-byte composition of the escaping table. -/
lemma escape_eq_escapeAll (s : List Nat) : escape_json_string s = escapeAll s := by
  have h : (([] : List Nat)).length + 2 * s.length < 2 * (s.length + 1) := by
    simp only [List.length_nil]
    omega
  simpa using escapeLoop_no_break s (2 * (s.length + 1)) [] h

lemma escapeAll_len_le (s : List Nat) : (escapeAll s).length ≤ 2 * s.length := by
  induction s with
  | nil => simp [escapeAll]
  | cons c rest ih =>
    have := escapeByte_len_le c
    simp only [escapeAll, List.length_append, List.length_cons]
    omega

lemma escapeAll_len_ge (s : List Nat) : s.length ≤ (escapeAll s).length := by
  induction s with
  | nil => simp [escapeAll]
  | cons c rest ih =>
    have := escapeByte_len_pos c
    simp only [escapeAll, List.length_append, List.length_cons]
    omega

/-- Two-cells-at-a-time induction for lists of bytes, matching the
recursion pattern of the decoder and the scanners. -/
lemma twoStepInduction {P : List Nat → Prop} (h0 : P []) (h1 : ∀ c, P [c])
    (h2 : ∀ c1 c2 rest, P rest → P (c2 :: rest) → P (c1 :: c2 :: rest)) :
    ∀ l, P l := by
  have key : ∀ l, P l ∧ ∀ c, P (c :: l) := by
    intro l
    induction l with
    | nil => exact ⟨h0, h1⟩
    | cons c2 rs ih => exact ⟨ih.2 c2, fun c1 => h2 c1 c2 rs ih.1 (ih.2 c2)⟩
  exact fun l => (key l).1

/-- Decoding one escaped byte at the front of a body undoes the escape. -/
lemma decode_escapeByte (c : Nat) (hc : goodByte c) (rest : List Nat) :
    jsonDecodeBody (escapeByte c ++ rest) = (jsonDecodeBody rest).map (fun t => c :: t) := by
  by_cases h92 : c = 92
  · subst h92
    simp [escapeByte, jsonDecodeBody, decodeEsc]
  by_cases h34 : c = 34
  · subst h34
    simp [escapeByte, jsonDecodeBody, decodeEsc]
  by_cases h10 : c = 10
  · subst h10
    simp [escapeByte, jsonDecodeBody, decodeEsc]
  by_cases h13 : c = 13
  · subst h13
    simp [escapeByte, jsonDecodeBody, decodeEsc]
  by_cases h9 : c = 9
  · subst h9
    simp [escapeByte, jsonDecodeBody, decodeEsc]
  by_cases h8 : c = 8
  · subst h8
    simp [escapeByte, jsonDecodeBody, decodeEsc]
  by_cases h12 : c = 12
  · subst h12
    simp [escapeByte, jsonDecodeBody, decodeEsc]
  have h32 : 32 ≤ c := by
    rcases hc with h | h | h | h | h | h <;> omega
  have hlt : ¬(c < 32) := by omega
  rw [escapeByte_eq_self c h92 h34 h10 h13 h9 h8 h12]
  cases rest with
  | nil =>
    simp [jsonDecodeBody, h92, h34, hlt]
  | cons r rs =>
    simp [jsonDecodeBody, h92, h34, hlt]

/-- Round-trip of the escaper against the strict decoder, for inputs whose
bytes are all decoder-clean. -/
lemma decode_escapeAll (s : List Nat) (h : ∀ b ∈ s, goodByte b) :
    jsonDecodeBody (escapeAll s) = some s := by
  induction s with
  | nil => simp [escapeAll, jsonDecodeBody]
  | cons c rest ih =>
    have hc : goodByte c := h c (List.mem_cons_self c rest)
    have hrest : ∀ b ∈ rest, goodByte b := fun b hb => h b (List.mem_cons_of_mem c hb)
    simp only [escapeAll]
    rw [decode_escapeByte c hc, ih hrest]
    rfl

lemma plainOk_of_not_special (c : Nat) (h92 : c ≠ 92) (h34 : c ≠ 34) (h10 : c ≠ 10)
    (h13 : c ≠ 13) (h9 : c ≠ 9) (h8 : c ≠ 8) (h12 : c ≠ 12) : plainOk c = true := by
  simp [plainOk, h92, h34, h10, h13, h9, h8, h12]

/-- Prepending the escape of a single byte preserves the scanner verdict. -/
lemma safeJsonBody_escapeByte (c : Nat) (rest : List Nat) :
    safeJsonBody (escapeByte c ++ rest) = safeJsonBody rest := by
  by_cases h92 : c = 92
  · subst h92
    simp [escapeByte, safeJsonBody, isEscCode]
  by_cases h34 : c = 34
  · subst h34
    simp [escapeByte, safeJsonBody, isEscCode]
  by_cases h10 : c = 10
  · subst h10
    simp [escapeByte, safeJsonBody, isEscCode]
  by_cases h13 : c = 13
  · subst h13
    simp [escapeByte, safeJsonBody, isEscCode]
  by_cases h9 : c = 9
  · subst h9
    simp [escapeByte, safeJsonBody, isEscCode]
  by_cases h8 : c = 8
  · subst h8
    simp [escapeByte, safeJsonBody, isEscCode]
  by_cases h12 : c = 12
  · subst h12
    simp [escapeByte, safeJsonBody, isEscCode]
  have hp := plainOk_of_not_special c h92 h34 h10 h13 h9 h8 h12
  rw [escapeByte_eq_self c h92 h34 h10 h13 h9 h8 h12]
  cases rest with
  | nil => simp [safeJsonBody, hp]
  | cons r rs => simp [safeJsonBody, h92, hp]

lemma safeJsonBody_escapeAll (s : List Nat) : safeJsonBody (escapeAll s) = true := by
  induction s with
  | nil => simp [escapeAll, safeJsonBody]
  | cons c rest ih =>
    simp only [escapeAll]
    rw [safeJsonBody_escapeByte c (escapeAll rest)]
    exact ih

/-- On inputs with none of the seven escaped bytes, every byte goes through
the default branch of the switch, so the escaper copies its input. -/
lemma escapeAll_id (s : List Nat)
    (h : ∀ b ∈ s, b ≠ 92 ∧ b ≠ 34 ∧ b ≠ 10 ∧ b ≠ 13 ∧ b ≠ 9 ∧ b ≠ 8 ∧ b ≠ 12) :
    escapeAll s = s := by
  induction s with
  | nil => simp [escapeAll]
  | cons c rest ih =>
    have hc := h c (List.mem_cons_self c rest)
    have hrest : ∀ b ∈ rest, b ≠ 92 ∧ b ≠ 34 ∧ b ≠ 10 ∧ b ≠ 13 ∧ b ≠ 9 ∧ b ≠ 8 ∧ b ≠ 12 :=
      fun b hb => h b (List.mem_cons_of_mem c hb)
    simp only [escapeAll]
    rw [escapeByte_eq_self c hc.1 hc.2.1 hc.2.2.1 hc.2.2.2.1 hc.2.2.2.2.1
      hc.2.2.2.2.2.1 hc.2.2.2.2.2.2, ih hrest]
    rfl

lemma scanString_close (rest : List Nat) : scanString (34 :: rest) = some rest := by
  cases rest with
  | nil => simp [scanString]
  | cons r rs => simp [scanString]

/-- A decodable string body is scanned past in full: the scanner stops at
the quote that follows the body and returns the remainder. -/
lemma scanString_decodable (body : List Nat) :
    ∀ rest : List Nat, (jsonDecodeBody body).isSome = true →
      scanString (body ++ 34 :: rest) = some rest := by
  induction body using twoStepInduction with
  | h0 =>
    intro rest _
    simpa using scanString_close rest
  | h1 c =>
    intro rest h
    simp only [jsonDecodeBody] at h
    by_cases hc : c = 92 ∨ c = 34 ∨ c < 32
    · rw [if_pos hc] at h
      simp at h
    · push_neg at hc
      have hgoal : ([c] ++ 34 :: rest) = c :: 34 :: rest := by simp
      rw [hgoal]
      simp only [scanString]
      rw [if_neg hc.2.1, if_neg hc.1, if_neg (show ¬c < 32 by omega)]
      exact scanString_close rest
  | h2 c1 c2 bs ihbs ihcons =>
    intro rest h
    simp only [jsonDecodeBody] at h
    by_cases h92 : c1 = 92
    · subst h92
      rw [if_pos rfl] at h
      cases hd : decodeEsc c2 with
      | none =>
        rw [hd] at h
        simp at h
      | some b =>
        rw [hd] at h
        have hrec : (jsonDecodeBody bs).isSome = true := by
          cases hb : jsonDecodeBody bs with
          | none => rw [hb] at h; simp at h
          | some t => rfl
        have hgoal : ((92 :: c2 :: bs) ++ 34 :: rest) = 92 :: c2 :: (bs ++ 34 :: rest) := by
          simp
        rw [hgoal]
        have hred : scanString (92 :: c2 :: (bs ++ 34 :: rest)) =
            if (decodeEsc c2).isSome then scanString (bs ++ 34 :: rest) else none := by
          simp [scanString]
        rw [hred, hd]
        simp only [Option.isSome_some, if_true]
        exact ihbs rest hrec
    · rw [if_neg h92] at h
      by_cases hc : c1 = 34 ∨ c1 < 32
      · rw [if_pos hc] at h
        simp at h
      · rw [if_neg hc] at h
        push_neg at hc
        have hrec : (jsonDecodeBody (c2 :: bs)).isSome = true := by
          cases hb : jsonDecodeBody (c2 :: bs) with
          | none => rw [hb] at h; simp at h
          | some t => rfl
        have hgoal : ((c1 :: c2 :: bs) ++ 34 :: rest) = c1 :: c2 :: (bs ++ 34 :: rest) := by
          simp
        rw [hgoal]
        simp only [scanString]
        rw [if_neg hc.1, if_neg h92, if_neg (show ¬c1 < 32 by omega)]
        have := ihcons rest hrec
        simpa using this

lemma scanMember_pairText (label comp rest : List Nat)
    (hl : (jsonDecodeBody label).isSome = true)
    (hc : (jsonDecodeBody (escape_json_string comp)).isSome = true) :
    scanMember (pairText label comp ++ rest) = some rest := by
  have hshape : pairText label comp ++ rest =
      34 :: (label ++ 34 :: 58 :: 34 :: (escape_json_string comp ++ 34 :: rest)) := by
    simp [pairText]
  rw [hshape]
  simp only [scanMember]
  rw [scanString_decodable label (58 :: 34 :: (escape_json_string comp ++ 34 :: rest)) hl]
  simp only []
  exact scanString_decodable (escape_json_string comp) rest hc

lemma tailTextJson_cons (q : List Nat × List Nat) (qs : List (List Nat × List Nat)) :
    tailTextJson (q :: qs) = 44 :: (pairText q.1 q.2 ++ tailTextJson qs) := by
  simp [tailTextJson]

lemma scanMembersTail_build (ps : List (List Nat × List Nat))
    (hgood : ∀ p ∈ ps, (jsonDecodeBody p.1).isSome = true ∧
      (jsonDecodeBody (escape_json_string p.2)).isSome = true) :
    ∀ fuel : Nat, (tailTextJson ps).length ≤ fuel + 1 →
      scanMembersTail fuel (tailTextJson ps) = true := by
  induction ps with
  | nil =>
    intro fuel _
    show scanMembersTail fuel [125] = true
    cases fuel <;> rfl
  | cons q qs ih =>
    intro fuel hfuel
    rw [tailTextJson_cons] at hfuel ⊢
    have hlen : 2 ≤ (44 :: (pairText q.1 q.2 ++ tailTextJson qs)).length := by
      simp [pairText, tailTextJson]
    cases fuel with
    | zero =>
      simp only [List.length_cons] at hfuel hlen
      omega
    | succ f =>
      have hq := hgood q (List.mem_cons_self q qs)
      have hqs : ∀ p ∈ qs, (jsonDecodeBody p.1).isSome = true ∧
          (jsonDecodeBody (escape_json_string p.2)).isSome = true :=
        fun p hp => hgood p (List.mem_cons_of_mem q hp)
      have hred : scanMembersTail (f + 1) (44 :: (pairText q.1 q.2 ++ tailTextJson qs)) =
          (match scanMember (pairText q.1 q.2 ++ tailTextJson qs) with
           | some r2 => scanMembersTail f r2
           | none => false) := by
        rfl
      rw [hred, scanMember_pairText q.1 q.2 (tailTextJson qs) hq.1 hq.2]
      apply ih hqs f
      simp only [List.length_cons, List.length_append] at hfuel
      omega

/-- Plain printable text with no quote and no backslash decodes to itself. -/
lemma decode_plain (l : List Nat) (h : ∀ b ∈ l, 32 ≤ b ∧ b ≠ 34 ∧ b ≠ 92) :
    jsonDecodeBody l = some l := by
  have hid : escapeAll l = l := by
    apply escapeAll_id
    intro b hb
    rcases h b hb with ⟨h32, h34, h92⟩
    exact ⟨h92, h34, by omega, by omega, by omega, by omega, by omega⟩
  have hdec := decode_escapeAll l (fun b hb => Or.inl (h b hb).1)
  rw [hid] at hdec
  exact hdec

/-- The built object text is accepted whenever every label body and every
escaped component body is decodable. -/
lemma jsonObjOk_build (pairs : List (List Nat × List Nat))
    (hgood : ∀ p ∈ pairs, (jsonDecodeBody p.1).isSome = true ∧
      (jsonDecodeBody (escape_json_string p.2)).isSome = true) :
    jsonObjOk (postal_parse_json pairs) = true := by
  cases pairs with
  | nil => rfl
  | cons p ps =>
    have hp := hgood p (List.mem_cons_self p ps)
    have hps : ∀ q ∈ ps, (jsonDecodeBody q.1).isSome = true ∧
        (jsonDecodeBody (escape_json_string q.2)).isSome = true :=
      fun q hq => hgood q (List.mem_cons_of_mem p hq)
    have hshape : postal_parse_json (p :: ps) =
        123 :: (pairText p.1 p.2 ++ tailTextJson ps) := by
      simp [postal_parse_json, tailTextJson, List.append_assoc]
    rw [hshape]
    have hobj : jsonObjOk (123 :: (pairText p.1 p.2 ++ tailTextJson ps)) =
        scanMembersStart (pairText p.1 p.2 ++ tailTextJson ps) := rfl
    rw [hobj]
    have hne : pairText p.1 p.2 ++ tailTextJson ps ≠ [125] := by
      simp [pairText]
    unfold scanMembersStart
    rw [if_neg hne, scanMember_pairText p.1 p.2 (tailTextJson ps) hp.1 hp.2]
    exact scanMembersTail_build ps hps (tailTextJson ps).length (by omega)

/-- Claim C1 (amended): for every text T all of whose bytes are printable
(32 or above) or among the five control bytes the escaper turns into
escapes (backspace, tab, newline, form feed, carriage return), decoding
the output of escape_json_string with the standard strict document-string
decoder recovers T exactly, byte for byte — including embedded quotes,
backslashes, newlines, tabs, the empty string, and multi-byte encoded
characters.  (The unamended claim over all T fails: the escaper passes
other control bytes through raw, and a strict decoder rejects them.) -/
theorem escape_roundtrip (s : List Nat) (h : ∀ b ∈ s, goodByte b) :
    jsonDecodeBody (escape_json_string s) = some s := by
  rw [escape_eq_escapeAll]
  exact decode_escapeAll s h

/-- Claim C1, counterexample to the unamended statement: for the one-byte
text 0x01, the escaper emits the byte raw and the strict decoder rejects
its output, so decoding does not recover the input. -/
theorem escape_roundtrip_cex :
    jsonDecodeBody (escape_json_string [1]) = none ∧
    ¬jsonDecodeBody (escape_json_string [1]) = some [1] := by
  decide

/-- Claim C1, witness: the amended round trip at a concrete text holding a
quote, a backslash, a newline, a tab and a two-byte encoded character. -/
theorem escape_roundtrip_witness :
    jsonDecodeBody (escape_json_string [79, 39, 66, 34, 92, 10, 9, 195, 169]) =
      some [79, 39, 66, 34, 92, 10, 9, 195, 169] :=
  escape_roundtrip [79, 39, 66, 34, 92, 10, 9, 195, 169] (by decide)

/-- Claim C2: escape_json_string processes its whole input per byte (the
composition law), each of the seven special bytes is emitted as exactly
the two-character sequence of the table in spec section 4.2, and every
other byte value below 256 is emitted unchanged in place. -/
theorem escape_exhaustive :
    (∀ s, escape_json_string s = escapeAll s) ∧
    escapeByte 92 = [92, 92] ∧ escapeByte 34 = [92, 34] ∧ escapeByte 10 = [92, 110] ∧
    escapeByte 13 = [92, 114] ∧ escapeByte 9 = [92, 116] ∧ escapeByte 8 = [92, 98] ∧
    escapeByte 12 = [92, 102] ∧
    (∀ b, b < 256 → b ≠ 92 → b ≠ 34 → b ≠ 10 → b ≠ 13 → b ≠ 9 → b ≠ 8 → b ≠ 12 →
      escapeByte b = [b]) := by
  refine ⟨escape_eq_escapeAll, by decide, by decide, by decide, by decide, by decide,
    by decide, by decide, ?_⟩
  intro b _ h92 h34 h10 h13 h9 h8 h12
  exact escapeByte_eq_self b h92 h34 h10 h13 h9 h8 h12

/-- Claim C2, witness: the letter A (65) is not special and is emitted
unchanged. -/
theorem escape_exhaustive_witness : escapeByte 65 = [65] :=
  escape_exhaustive.2.2.2.2.2.2.2.2 65 (by decide) (by decide) (by decide) (by decide)
    (by decide) (by decide) (by decide) (by decide)

/-- Claim C3 (amended): the intermediate JSON text built by postal_parse
(labels and escaped components joined by commas and wrapped in braces) is
syntactically valid object text accepted by the host document parser for
every input whose components contain no control bytes other than the five
escaped ones, given that the engine's labels are plain identifier text
(printable, no quote, no backslash) — postal_parse inserts labels without
escaping them.  (The unamended claim over every possible input fails: a
component holding a control byte such as 0x01 is passed through raw and
the built text is rejected.) -/
theorem parse_json_valid (pairs : List (List Nat × List Nat))
    (hl : ∀ p ∈ pairs, ∀ b ∈ p.1, 32 ≤ b ∧ b ≠ 34 ∧ b ≠ 92)
    (hc : ∀ p ∈ pairs, ∀ b ∈ p.2, goodByte b) :
    jsonObjOk (postal_parse_json pairs) = true := by
  apply jsonObjOk_build
  intro p hp
  constructor
  · rw [decode_plain p.1 (hl p hp)]
    rfl
  · rw [escape_eq_escapeAll, decode_escapeAll p.2 (hc p hp)]
    rfl

/-- Claim C3, counterexample to the unamended statement: a single
component holding the raw byte 0x01 (with the engine label `road`) yields
object text the strict checker rejects. -/
theorem parse_json_valid_cex :
    jsonObjOk (postal_parse_json [([114, 111, 97, 100], [1])]) = false := by
  decide

/-- Claim C3, witness: one member with label `road` and component `5 Main`
yields accepted object text. -/
theorem parse_json_valid_witness :
    jsonObjOk (postal_parse_json [([114, 111, 97, 100], [53, 32, 77, 97, 105, 110])]) = true :=
  parse_json_valid [([114, 111, 97, 100], [53, 32, 77, 97, 105, 110])] (by decide) (by decide)

/-- Claim C4 (refuted, code bug): when the first host allocation after the
external acquisition fails (oracle index 1: the palloc of arr_elems at
line 88 for postal_normalize, initStringInfo at line 179 for
postal_parse), the error propagates with the external buffer never
released — the acquire event has no matching release.  On the all-
allocations-succeed paths the pairing does hold, and a document-parser
rejection propagates only after the release. -/
theorem external_buffer_leak_on_alloc_failure :
    (postal_normalize_run 1 (fun k => !(k == 1))).1 = [BoundaryEv.expandAcq] ∧
    (postal_normalize_run 1 (fun k => !(k == 1))).2 = false ∧
    BoundaryEv.expandRelease ∉ (postal_normalize_run 1 (fun k => !(k == 1))).1 ∧
    (postal_parse_run 1 (fun k => !(k == 1)) true).1 = [BoundaryEv.parseAcq] ∧
    (postal_parse_run 1 (fun k => !(k == 1)) true).2 = false ∧
    BoundaryEv.parseRelease ∉ (postal_parse_run 1 (fun k => !(k == 1)) true).1 ∧
    postal_normalize_run 1 (fun _ => true) =
      ([BoundaryEv.expandAcq, BoundaryEv.expandRelease], true) ∧
    postal_parse_run 1 (fun _ => true) true =
      ([BoundaryEv.parseAcq, BoundaryEv.parseRelease], true) ∧
    postal_parse_run 1 (fun _ => true) false =
      ([BoundaryEv.parseAcq, BoundaryEv.parseRelease], false) := by
  decide

/-- Claim C5: escape_json_string never truncates silently — every input
byte is processed and represented (the output is the full per-byte
composition of the table), and the output plus its terminator always fits
in the allocated worst-case bound 2*(len+1), so the early-exit guard never
cuts the result short. -/
theorem escape_no_silent_truncation (s : List Nat) :
    escape_json_string s = escapeAll s ∧
    s.length ≤ (escape_json_string s).length ∧
    (escape_json_string s).length + 1 ≤ 2 * (s.length + 1) := by
  refine ⟨escape_eq_escapeAll s, ?_, ?_⟩
  · rw [escape_eq_escapeAll]
    exact escapeAll_len_ge s
  · rw [escape_eq_escapeAll]
    have := escapeAll_len_le s
    omega

/-- Claim C6: the array postal_normalize builds has exactly the length the
engine reported, and its i-th element is the engine's i-th expansion,
bytes preserved, with no reordering and no deduplication. -/
theorem normalize_order_preserved (exps : List (List Nat)) :
    (postal_normalize_result exps).length = exps.length ∧
    ∀ i : Nat, i < exps.length →
      (postal_normalize_result exps).getD i [] = exps.getD i [] := by
  constructor
  · simp [postal_normalize_result]
  · intro i hi
    simp [postal_normalize_result, List.getD_eq_getElem?_getD, List.getElem?_map,
      List.getElem?_range, hi]

/-- Claim C6, witness: at a two-expansion engine output, element 1 is the
second expansion. -/
theorem normalize_order_witness :
    (postal_normalize_result [[65], [66, 67]]).getD 1 [] = [66, 67] :=
  ((normalize_order_preserved [[65], [66, 67]]).2 1 (by decide)).trans (by decide)

/-- Claim C7: zero expansions from the engine yield the empty array and a
normal return (no error), and zero components yield exactly the object
text of two bytes, brace and brace, which the document parser accepts —
also a normal return. -/
theorem empty_results_ok :
    postal_normalize_result [] = [] ∧
    postal_normalize_run 0 (fun _ => true) =
      ([BoundaryEv.expandAcq, BoundaryEv.expandRelease], true) ∧
    postal_parse_json [] = [123, 125] ∧
    jsonObjOk [123, 125] = true ∧
    postal_parse_run 0 (fun _ => true) true =
      ([BoundaryEv.parseAcq, BoundaryEv.parseRelease], true) := by
  decide

/-- Claim C8: if any of the three libpostal setup calls fails, _PG_init
fails (elog(ERROR)), the failure propagates immediately, and the calls
after the first failing one are never attempted. -/
theorem init_short_circuit (s1 s2 s3 : Bool)
    (h : s1 = false ∨ s2 = false ∨ s3 = false) :
    (pg_init s1 s2 s3).2 = false ∧
    (s1 = false → (pg_init s1 s2 s3).1 = [SetupStep.coreSetup]) ∧
    (s1 = true → s2 = false →
      (pg_init s1 s2 s3).1 = [SetupStep.coreSetup, SetupStep.parserSetup]) ∧
    (s1 = true → s2 = true → s3 = false →
      (pg_init s1 s2 s3).1 =
        [SetupStep.coreSetup, SetupStep.parserSetup, SetupStep.classifierSetup]) := by
  cases s1 <;> cases s2 <;> cases s3 <;> revert h <;> decide

/-- Claim C8, witness: a failed core setup aborts startup after the first
call only. -/
theorem init_short_circuit_witness :
    (pg_init false true true).1 = [SetupStep.coreSetup] ∧ (pg_init false true true).2 = false := by
  have h := init_short_circuit false true true (Or.inl rfl)
  exact ⟨h.2.1 rfl, h.1⟩

/-- Claim C9: on input with none of the seven special bytes, every byte
takes the default branch of the switch, so escape_json_string is the
identity byte for byte. -/
theorem escape_identity_no_specials (s : List Nat)
    (h : ∀ b ∈ s, b ≠ 92 ∧ b ≠ 34 ∧ b ≠ 10 ∧ b ≠ 13 ∧ b ≠ 9 ∧ b ≠ 8 ∧ b ≠ 12) :
    escape_json_string s = s := by
  rw [escape_eq_escapeAll]
  exact escapeAll_id s h

/-- Claim C9, witness: the text `Hi 123` is returned unchanged. -/
theorem escape_identity_witness :
    escape_json_string [72, 105, 32, 49, 50, 51] = [72, 105, 32, 49, 50, 51] :=
  escape_identity_no_specials [72, 105, 32, 49, 50, 51] (by decide)

/-- Claim C10: for every input, the escaper's output contains no raw
newline, carriage return, tab, backspace or form-feed byte, and every
quote or backslash in it occurs only inside a two-byte escape sequence
that starts with a backslash, so the output can sit between double quotes
without ending the literal early. -/
theorem escape_output_embeddable (s : List Nat) :
    safeJsonBody (escape_json_string s) = true := by
  rw [escape_eq_escapeAll]
  exact safeJsonBody_escapeAll s
